import Mathlib

/-!
Verification of the Cross-Stitch-Generator pattern-generation engine.

The definitions below are a shallow embedding of the helper functions of the
editor component (`getBackgroundGrid`, `traceAndSimplifyContours`,
`simplifyPath`), of the quantization loop, of the parameter-history state
updates (`setState`, `handleUndo`, `handleRedo`), and of the two render
backends (the canvas raster pass and the SVG generation of
`handleDownloadSvg`).

Modelling conventions:
* JavaScript numbers holding grid coordinates are modelled as `ℤ` (the code
  computes `y - 1` which can be `-1`); pixel-space coordinates, which mix
  integers with fractional scale factors, are modelled as `ℚ`.
* Boolean grids (`boolean[][]` indexed as `grid[y][x]`) are modelled as total
  functions `ℤ → ℤ → Bool`; every access the code performs is guarded to be
  in bounds, so values outside the rectangle are never observed.
* The breadth-first flood fill and the contour walk, `while` loops in the
  source, are modelled with an explicit fuel argument; the fuel supplied is a
  bound on the number of iterations the loop can perform (each iteration
  either consumes a queue entry, and entries are only created while marking a
  previously unmarked cell, or terminates the loop), so the modelled loop
  runs to completion exactly as the source loop does.
* JavaScript `Set` objects on which the code only calls `add`/`has`, and over
  which it iterates in insertion order, are modelled as duplicate-free lists
  in insertion order; `Map` objects are modelled as association lists in key
  insertion order.
* The float comparisons `Math.abs(c) > 1e-9` / `Math.abs(c) < 1e-9` in
  `simplifyPath` are applied to cross products of integer lattice points, so
  they are exactly `c ≠ 0` / `c = 0`; the embedding uses the integer form.
* The luminance expression `r*0.299 + g*0.587 + b*0.114` is evaluated by
  JavaScript in IEEE-754 double arithmetic.  The embedding models it
  exactly: every intermediate double is a dyadic pair (integer significand,
  power-of-two denominator), the three literals are the doubles nearest the
  decimal fractions, and each multiplication and addition is one correctly
  rounded (round half to even) operation on such pairs.  All values stay
  far inside the normal range, so subnormals and overflow never arise.
-/

namespace CrossStitch

/-- A grid point `(x, y)` on the corner lattice of the stitch grid. -/
abbrev Pt := ℤ × ℤ

/-- The cross product computed inside `simplifyPath` (part_000 lines 616,
627, 636): `(c.y − p.y)·(n.x − c.x) − (c.x − p.x)·(n.y − c.y)`. -/
def cross3 (p c n : Pt) : ℤ :=
  (c.2 - p.2) * (n.1 - c.1) - (c.1 - p.1) * (n.2 - c.2)

/-! ## PathSimplifier (`simplifyPath`, part_000 lines 609–642) -/

/-- The interior pass of `simplifyPath` (lines 611–621): starting from the
point pushed last (`prev`), keep each interior point whose cross product with
the previously kept point and the next original point is nonzero, and always
push the final point.  `scanKeep prev l` is the list the loop appends after
`prev`; the full pass result is `path[0] :: scanKeep path[0] path.tail`. -/
def scanKeep (prev : Pt) : List Pt → List Pt
  | [] => []
  | [last] => [last]
  | curr :: next :: rest =>
    if cross3 prev curr next = 0 then scanKeep prev (next :: rest)
    else curr :: scanKeep curr (next :: rest)

/-- The first wrap-around check of `simplifyPath` (lines 623–631): if the
list has at least 3 points and the last point is collinear with its
predecessor and the first point, pop the last point. -/
def popCheck (s : List Pt) : List Pt :=
  if 3 ≤ s.length ∧
      cross3 (s.getD (s.length - 2) 0) (s.getD (s.length - 1) 0) (s.getD 0 0) = 0
  then s.dropLast else s

/-- The second wrap-around check of `simplifyPath` (lines 632–640): if the
list still has at least 3 points and the first point is collinear with the
last point and the second point, shift the first point off. -/
def shiftCheck (s : List Pt) : List Pt :=
  if 3 ≤ s.length ∧
      cross3 (s.getD (s.length - 1) 0) (s.getD 0 0) (s.getD 1 0) = 0
  then s.tail else s

/-- `simplifyPath` (part_000 lines 609–642): paths of fewer than 3 points are
returned unchanged; otherwise the interior pass runs, followed by the two
wrap-around collinearity checks. -/
def simplifyPath (path : List Pt) : List Pt :=
  if path.length < 3 then path
  else
    match path with
    | [] => []
    | p0 :: tl => shiftCheck (popCheck (p0 :: scanKeep p0 tl))

/-! ## Quantizer (part_000 lines 123–159) -/

/-- The exact-arithmetic luminance `0.299·R + 0.587·G + 0.114·B` that the
specification's occupancy rule speaks of (the coefficients sum to 1).  The
source evaluates this expression in IEEE-754 double arithmetic — see
`jsGray` — which rounds, and the two differ at threshold-boundary inputs. -/
def luminance (r g b : ℕ) : ℚ :=
  (r : ℚ) * (299 / 1000) + (g : ℚ) * (587 / 1000) + (b : ℚ) * (114 / 1000)

/-- Bit length of a natural number, with explicit fuel so the kernel can
evaluate it; 64 bits covers every significand arising in the luminance
computation (they stay below 2^62). -/
def bitLenAux : ℕ → ℕ → ℕ
  | 0, _ => 0
  | fuel + 1, n => if n = 0 then 0 else bitLenAux fuel (n / 2) + 1

def bitLen (n : ℕ) : ℕ := bitLenAux 64 n

/-- Round the nonnegative dyadic value `N / 2^S` to the nearest IEEE-754
double (53-bit significand, round half to even), returned as a dyadic
pair.  Values here lie well inside the normal range, so neither subnormal
rounding nor overflow can occur, and `S` always exceeds the shift `d`. -/
def rnd53 (N S : ℕ) : ℕ × ℕ :=
  if bitLen N ≤ 53 then (N, S)
  else
    let d := bitLen N - 53
    let q := N / 2 ^ d
    let r := N % 2 ^ d
    let half := 2 ^ (d - 1)
    let q2 := if half < r ∨ (r = half ∧ q % 2 = 1) then q + 1 else q
    (q2, S - d)

/-- One double multiplication of an exact small integer by a double. -/
def mulIntD (k : ℕ) (d : ℕ × ℕ) : ℕ × ℕ := rnd53 (k * d.1) d.2

/-- One double addition of two nonnegative doubles. -/
def addD (d1 d2 : ℕ × ℕ) : ℕ × ℕ :=
  let s := max d1.2 d2.2
  rnd53 (d1.1 * 2 ^ (s - d1.2) + d2.1 * 2 ^ (s - d2.2)) s

/-- The IEEE-754 double nearest the literal `0.299`:
`5386305154335113 / 2^54` (hex float `0x1.3225808p-2` family). -/
def c299 : ℕ × ℕ := (5386305154335113, 54)

/-- The IEEE-754 double nearest the literal `0.587`:
`2643612981266481 / 2^52`. -/
def c587 : ℕ × ℕ := (2643612981266481, 52)

/-- The IEEE-754 double nearest the literal `0.114`:
`8214565720323785 / 2^56`. -/
def c114 : ℕ × ℕ := (8214565720323785, 56)

/-- `gray = r * 0.299 + g * 0.587 + b * 0.114` (line 154) computed exactly
as JavaScript computes it: three rounded double multiplications and two
rounded double additions, left to right, on the rounded literal
coefficients. -/
def jsGray (r g b : ℕ) : ℕ × ℕ :=
  addD (addD (mulIntD r c299) (mulIntD g c587)) (mulIntD b c114)

/-- The comparison `gray < threshold` of line 155, exact on the dyadic
representation: `N / 2^S < t ↔ N < t · 2^S` (the integer threshold is a
double exactly). -/
def grayLtThreshold (d : ℕ × ℕ) (t : ℕ) : Bool :=
  decide (d.1 < t * 2 ^ d.2)

/-- The occupancy decision for one cell (line 155): occupied iff
`a > 128 && gray < threshold`, with `gray` the double the code computes. -/
def cellOccupied (r g b a threshold : ℕ) : Bool :=
  decide (128 < a) && grayLtThreshold (jsGray r g b) threshold

/-- The derived stitch height (line 132): `Math.floor(gridSize / aspectRatio)`
where `aspectRatio = image.width / image.height` is a positive rational. -/
def stitchesYOf (gridSize : ℕ) (aspectRatio : ℚ) : ℤ :=
  ⌊(gridSize : ℚ) / aspectRatio⌋

/-- The occupancy-grid construction loop (lines 146–159).  `data` is the
flat RGBA byte array returned by `getImageData` (`data i ∈ [0,255]`, four
entries per sample, index `(y*stitchesX + x) * 4`). -/
def quantizeGrid (data : ℕ → ℕ) (stitchesX stitchesY threshold : ℕ) :
    List (List Bool) :=
  (List.range stitchesY).map fun y =>
    (List.range stitchesX).map fun x =>
      let i := (y * stitchesX + x) * 4
      cellOccupied (data i) (data (i + 1)) (data (i + 2)) (data (i + 3)) threshold

/-- Outcome of one run of the quantization stage.  The source performs no
dimension validation and contains no `throw`: every run that reaches the
grid-construction loop (line 146) completes and yields a grid, so the
embedding always returns `Except.ok`.  The `Except` shape only makes the
absence of an error value observable. -/
def quantizeRun (data : ℕ → ℕ) (stitchesX stitchesY threshold : ℕ) :
    Except String (List (List Bool)) :=
  Except.ok (quantizeGrid data stitchesX stitchesY threshold)

/-! ## ParameterHistory (part_000 lines 14–99) -/

/-- A thread-colour palette entry (`DmcColor` in types.ts). -/
structure DmcColor where
  name : String
  dmc : String
  hex : String
deriving DecidableEq, Repr

/-- The fill-shape union type (`'circle' | 'square'`). -/
inductive FillShape where
  | circle
  | square
deriving DecidableEq, Repr

/-- The `EditorState` snapshot type (lines 16–22). -/
structure EditorState where
  gridSize : ℤ
  threshold : ℤ
  fillShape : FillShape
  outlineOffset : ℤ
  selectedColor : DmcColor
deriving DecidableEq, Repr

/-- The component's history state: the `history` array and `historyIndex`
(lines 44–45).  `historyIndex` starts at `-1`, hence `ℤ`. -/
structure HistoryState where
  history : List EditorState
  historyIndex : ℤ
deriving DecidableEq, Repr

/-- `history[historyIndex]` (line 54): `undefined` (`none`) when the index is
negative or past the end. -/
def currentOf (s : HistoryState) : Option EditorState :=
  if 0 ≤ s.historyIndex then s.history.get? s.historyIndex.toNat else none

/-- `setState` (lines 58–67).  The source merges a partial update into the
current entry and pushes the merged snapshot; `nextState` here is that merged
full snapshot.  Value equality via `JSON.stringify` on two records of the
same shape is structural equality, and is never satisfied when there is no
current entry.  `history.slice(0, historyIndex + 1)` keeps the first
`historyIndex + 1` entries (`historyIndex ≥ -1` always). -/
def setState (s : HistoryState) (nextState : EditorState) : HistoryState :=
  if currentOf s = some nextState then s
  else
    let newHistory := s.history.take (s.historyIndex + 1).toNat ++ [nextState]
    { history := newHistory, historyIndex := (newHistory.length : ℤ) - 1 }

/-- `handleUndo` (lines 69–73): moves the cursor back iff `historyIndex > 0`. -/
def handleUndo (s : HistoryState) : HistoryState :=
  if 0 < s.historyIndex then { s with historyIndex := s.historyIndex - 1 } else s

/-- `handleRedo` (lines 75–79): moves the cursor forward iff
`historyIndex < history.length - 1`. -/
def handleRedo (s : HistoryState) : HistoryState :=
  if s.historyIndex < (s.history.length : ℤ) - 1 then
    { s with historyIndex := s.historyIndex + 1 }
  else s

/-! ## BackgroundResolver (`getBackgroundGrid`, part_000 lines 502–526) -/

/-- Marking one cell of the background grid (`backgroundGrid[y][x] = true`). -/
def setCell (bg : ℤ → ℤ → Bool) (y x : ℤ) : ℤ → ℤ → Bool :=
  fun j i => if j = y ∧ i = x then true else bg j i

/-- The seeding loops of `getBackgroundGrid` (lines 506–513): every
unoccupied cell of the first/last column and first/last row is marked and
enqueued (the right column / bottom row only when `width > 1` / `height > 1`).
The queue holds `[y, x]` pairs in push order. -/
def seedPass (grid : ℤ → ℤ → Bool) (width height : ℕ) :
    (ℤ → ℤ → Bool) × List (ℤ × ℤ) :=
  let s1 := (List.range height).foldl
    (fun (acc : (ℤ → ℤ → Bool) × List (ℤ × ℤ)) (yn : ℕ) =>
      let y : ℤ := (yn : ℤ)
      let acc := if grid y 0 = false then
          (setCell acc.1 y 0, acc.2 ++ [(y, 0)]) else acc
      if 1 < width ∧ grid y ((width : ℤ) - 1) = false then
        (setCell acc.1 y ((width : ℤ) - 1), acc.2 ++ [(y, (width : ℤ) - 1)])
      else acc)
    ((fun _ _ => false), [])
  (List.range width).foldl
    (fun (acc : (ℤ → ℤ → Bool) × List (ℤ × ℤ)) (xn : ℕ) =>
      let x : ℤ := (xn : ℤ)
      let acc := if grid 0 x = false then
          (setCell acc.1 0 x, acc.2 ++ [(0, x)]) else acc
      if 1 < height ∧ grid ((height : ℤ) - 1) x = false then
        (setCell acc.1 ((height : ℤ) - 1) x, acc.2 ++ [((height : ℤ) - 1, x)])
      else acc)
    s1

/-- One dequeue step's neighbour scan (lines 516–523): each of the four
4-connected neighbours that is in bounds, unmarked and unoccupied is marked
and enqueued. -/
def neighborScan (grid : ℤ → ℤ → Bool) (width height : ℕ)
    (acc : (ℤ → ℤ → Bool) × List (ℤ × ℤ)) (c : ℤ × ℤ) :
    (ℤ → ℤ → Bool) × List (ℤ × ℤ) :=
  if 0 ≤ c.1 ∧ c.1 < (height : ℤ) ∧ 0 ≤ c.2 ∧ c.2 < (width : ℤ) ∧
      acc.1 c.1 c.2 = false ∧ grid c.1 c.2 = false then
    (setCell acc.1 c.1 c.2, acc.2 ++ [c])
  else acc

/-- The BFS loop of `getBackgroundGrid` (lines 515–524), with fuel bounding
the number of dequeues; `queue.shift()` takes from the front. -/
def bfsLoop (grid : ℤ → ℤ → Bool) (width height : ℕ) :
    ℕ → List (ℤ × ℤ) → (ℤ → ℤ → Bool) → (ℤ → ℤ → Bool)
  | 0, _, bg => bg
  | _ + 1, [], bg => bg
  | fuel + 1, (y, x) :: rest, bg =>
    let r := [(y - 1, x), (y + 1, x), (y, x - 1), (y, x + 1)].foldl
      (neighborScan grid width height) (bg, rest)
    bfsLoop grid width height fuel r.2 r.1

/-- `getBackgroundGrid` (part_000 lines 502–526): seed from the border, then
flood fill.  The fuel `width*height + 2*(width + height)` bounds the total
number of queue entries ever created (each seed loop pushes at most
`2*height + 2*width` entries, and each BFS push marks a previously unmarked
in-bounds cell), so the loop drains the queue exactly as the source does. -/
def getBackgroundGrid (grid : ℤ → ℤ → Bool) (width height : ℕ) :
    ℤ → ℤ → Bool :=
  let s := seedPass grid width height
  bfsLoop grid width height (width * height + 2 * (width + height)) s.2 s.1

/-! ## ContourTracer (`traceAndSimplifyContours`, part_000 lines 528–607) -/

/-- `Set.add` on a set only ever tested with `has` and iterated in insertion
order: append the element unless it is already present. -/
def addIfNew (l : List Pt) (p : Pt) : List Pt :=
  if p ∈ l then l else l ++ [p]

/-- The per-cell body of the boundary-edge collection loop (lines 532–541):
for an occupied cell `(x, y)`, each of its four sides is added to the
horizontal/vertical edge set iff the neighbour across that side is out of
the grid or marked in the background grid.  Horizontal edge keys are the
left endpoint `(x, y)` of cell tops/bottoms; vertical edge keys the top
endpoint `(x, y)` of cell lefts/rights. -/
def collectStep (grid bg : ℤ → ℤ → Bool) (width height : ℕ)
    (acc : List Pt × List Pt) (c : ℕ × ℕ) : List Pt × List Pt :=
  let y : ℤ := (c.1 : ℤ)
  let x : ℤ := (c.2 : ℤ)
  if grid y x then
    let hE := if y = 0 ∨ bg (y - 1) x then addIfNew acc.1 (x, y) else acc.1
    let hE := if y = (height : ℤ) - 1 ∨ bg (y + 1) x then
        addIfNew hE (x, y + 1) else hE
    let vE := if x = 0 ∨ bg y (x - 1) then addIfNew acc.2 (x, y) else acc.2
    let vE := if x = (width : ℤ) - 1 ∨ bg y (x + 1) then
        addIfNew vE (x + 1, y) else vE
    (hE, vE)
  else acc

/-- The row-major cell scan (`for y … for x …`) feeding `collectStep`. -/
def gridCells (width height : ℕ) : List (ℕ × ℕ) :=
  (List.range height).flatMap fun y => (List.range width).map fun x => (y, x)

/-- The two boundary-edge sets (`horizontalEdges`, `verticalEdges`) of
lines 529–541, in insertion order. -/
def collectEdges (grid bg : ℤ → ℤ → Bool) (width height : ℕ) :
    List Pt × List Pt :=
  (gridCells width height).foldl (collectStep grid bg width height) ([], [])

/-- An edge record `{ p1, p2 }` as stored in the adjacency map. -/
abbrev EdgeRec := Pt × Pt

/-- Appending an edge to the list of one existing key of `pointsToEdges`. -/
def mapPush (m : List (Pt × List EdgeRec)) (k : Pt) (e : EdgeRec) :
    List (Pt × List EdgeRec) :=
  m.map fun kv => if kv.1 = k then (kv.1, kv.2 ++ [e]) else kv

/-- `if (!pointsToEdges.has(k)) pointsToEdges.set(k, [])` (lines 548–549):
insert the key at the end with an empty edge list if absent. -/
def ensureKey (m : List (Pt × List EdgeRec)) (k : Pt) :
    List (Pt × List EdgeRec) :=
  if m.any (fun kv => kv.1 = k) then m else m ++ [(k, [])]

/-- `addEdgeToMap` (lines 544–552): ensure both endpoints are keys, then push
the edge record onto both endpoint lists. -/
def addEdgeToMap (m : List (Pt × List EdgeRec)) (p1 p2 : Pt) :
    List (Pt × List EdgeRec) :=
  mapPush (mapPush (ensureKey (ensureKey m p1) p2) p1 (p1, p2)) p2 (p1, p2)

/-- Building `pointsToEdges` (lines 543–561): horizontal edge keys `(x, y)`
yield edges `(x, y)–(x+1, y)`, then vertical edge keys yield `(x, y)–(x, y+1)`,
in set-insertion order. -/
def buildPointsToEdges (hE vE : List Pt) : List (Pt × List EdgeRec) :=
  let m := hE.foldl (fun m p => addEdgeToMap m (p.1, p.2) (p.1 + 1, p.2)) []
  vE.foldl (fun m p => addEdgeToMap m (p.1, p.2) (p.1, p.2 + 1)) m

/-- Lookup of the edge list of a point (`pointsToEdges.get(k) || []`). -/
def mapGet (m : List (Pt × List EdgeRec)) (k : Pt) : List EdgeRec :=
  ((m.find? fun kv => kv.1 = k).map fun kv => kv.2).getD []

/-- The candidate scan of the walk's inner `for` loop (lines 579–590): take
the first edge at `cur` whose other endpoint is unvisited.  The source
computes the candidate with two successive `if`s (the second overwrites the
first), then skips visited candidates. -/
def findNext (cur : Pt) (visited : List Pt) : List EdgeRec → Option Pt
  | [] => none
  | e :: rest =>
    let cand : Option Pt :=
      if e.2 = cur then some e.1 else if e.1 = cur then some e.2 else none
    match cand with
    | some c => if c ∈ visited then findNext cur visited rest else some c
    | none => findNext cur visited rest

/-- The `while (true)` walk of lines 575–600: repeatedly move to the first
unvisited neighbour, marking and appending it, until none exists.  Each
iteration visits a new key of the map, so fuel `m.length` suffices. -/
def walkLoop (m : List (Pt × List EdgeRec)) :
    ℕ → Pt → List Pt → List Pt → List Pt × List Pt
  | 0, _, visited, path => (visited, path)
  | fuel + 1, cur, visited, path =>
    match findNext cur visited (mapGet m cur) with
    | some nxt => walkLoop m fuel nxt (visited ++ [nxt]) (path ++ [nxt])
    | none => (visited, path)

/-- The outer walk loop over the map's keys (lines 566–604): start a walk at
each unvisited key; keep the simplified path when the walk has more than one
point. -/
def traceStep (m : List (Pt × List EdgeRec))
    (acc : List Pt × List (List Pt)) (sp : Pt) : List Pt × List (List Pt) :=
  if sp ∈ acc.1 then acc
  else
    let w := walkLoop m m.length sp (acc.1 ++ [sp]) [sp]
    if 1 < w.2.length then (w.1, acc.2 ++ [simplifyPath w.2]) else (w.1, acc.2)

/-- `traceAndSimplifyContours` (part_000 lines 528–607). -/
def traceAndSimplifyContours (grid bg : ℤ → ℤ → Bool) (width height : ℕ) :
    List (List Pt) :=
  let es := collectEdges grid bg width height
  let m := buildPointsToEdges es.1 es.2
  ((m.map fun kv => kv.1).foldl (traceStep m) ([], [])).2

/-! ## Rasterizer (part_000 lines 162–209) and VectorExporter
(`handleDownloadSvg`, part_000 lines 317–372)

Both backends are modelled as the list of drawing primitives they emit, in
emission order (strokes first, then fills, matching both sources).  Stroked
contour paths are closed in both backends (`closePath()` / the `Z` command);
the raster pass additionally sets `miterLimit = 4`, which only matters for
its miter join. -/

/-- One drawing primitive: a closed stroked polyline, a filled circle, or a
filled axis-aligned rectangle. -/
inductive RenderPrim where
  | strokePath (pts : List (ℚ × ℚ)) (color : String) (width : ℚ) (join : String)
  | fillCircle (cx cy r : ℚ) (color : String)
  | fillRect (x y w h : ℚ) (color : String)
deriving DecidableEq, Repr

/-- The canvas rendering pass (lines 162–209): when `outlineOffset > 0`,
stroke every contour path (coordinates scaled by `stitchWidth`/`stitchHeight`,
line width `outlineOffset * 2`, `lineJoin = 'miter'`); a path of fewer than 2
points becomes an empty `Path2D`, whose stroke draws nothing, so it emits no
primitive.  Then fill every occupied cell with a centred circle of radius
`stitchSize / 3` or square of side `stitchSize * 2 / 3`, where `stitchSize`
is the smaller cell dimension. -/
def rasterCommands (grid : ℤ → ℤ → Bool) (stitchesX stitchesY : ℕ)
    (fillShape : FillShape) (outlineOffset : ℚ) (colorHex : String)
    (stitchWidth stitchHeight : ℚ) : List RenderPrim :=
  let strokes : List RenderPrim :=
    if 0 < outlineOffset then
      let backgroundGrid := getBackgroundGrid grid stitchesX stitchesY
      let contourPaths :=
        traceAndSimplifyContours grid backgroundGrid stitchesX stitchesY
      contourPaths.filterMap fun path =>
        if path.length < 2 then none
        else some (RenderPrim.strokePath
          (path.map fun p => ((p.1 : ℚ) * stitchWidth, (p.2 : ℚ) * stitchHeight))
          colorHex (outlineOffset * 2) "miter")
    else []
  let stitchSize := min stitchWidth stitchHeight
  let circleRadius := stitchSize / 3
  let squareSize := stitchSize * 2 / 3
  let fills : List RenderPrim :=
    (List.range stitchesY).flatMap fun (y : ℕ) =>
      (List.range stitchesX).filterMap fun (x : ℕ) =>
        if grid (y : ℤ) (x : ℤ) then
          some (match fillShape with
            | FillShape.circle => RenderPrim.fillCircle
                ((x : ℚ) * stitchWidth + stitchWidth / 2)
                ((y : ℚ) * stitchHeight + stitchHeight / 2) circleRadius colorHex
            | FillShape.square => RenderPrim.fillRect
                ((x : ℚ) * stitchWidth + (stitchWidth - squareSize) / 2)
                ((y : ℚ) * stitchHeight + (stitchHeight - squareSize) / 2)
                squareSize squareSize colorHex)
        else none
  strokes ++ fills

/-- The SVG element generation of `handleDownloadSvg` (lines 317–372): the
base unit is `stitchSize = 10`; when `outlineOffset > 0`, each contour path
of at least 2 points becomes a `<path>` with `stroke-width = outlineOffset*2`
and `stroke-linejoin="round"`; each occupied cell becomes a `<circle>` of
radius `stitchSize / 3` or a `<rect>` of side `stitchSize * 2 / 3` centred on
the cell. -/
def svgCommands (grid : ℤ → ℤ → Bool) (stitchesX stitchesY : ℕ)
    (fillShape : FillShape) (outlineOffset : ℚ) (colorHex : String) :
    List RenderPrim :=
  let stitchSize : ℚ := 10
  let strokes : List RenderPrim :=
    if 0 < outlineOffset then
      let backgroundGrid := getBackgroundGrid grid stitchesX stitchesY
      let contourPaths :=
        traceAndSimplifyContours grid backgroundGrid stitchesX stitchesY
      contourPaths.filterMap fun path =>
        if path.length < 2 then none
        else some (RenderPrim.strokePath
          (path.map fun p => ((p.1 : ℚ) * stitchSize, (p.2 : ℚ) * stitchSize))
          colorHex (outlineOffset * 2) "round")
    else []
  let circleRadius := stitchSize / 3
  let squareSize := stitchSize * 2 / 3
  let fills : List RenderPrim :=
    (List.range stitchesY).flatMap fun (y : ℕ) =>
      (List.range stitchesX).filterMap fun (x : ℕ) =>
        if grid (y : ℤ) (x : ℤ) then
          let centerX := (x : ℚ) * stitchSize + stitchSize / 2
          let centerY := (y : ℚ) * stitchSize + stitchSize / 2
          some (match fillShape with
            | FillShape.circle =>
                RenderPrim.fillCircle centerX centerY circleRadius colorHex
            | FillShape.square => RenderPrim.fillRect
                (centerX - squareSize / 2) (centerY - squareSize / 2)
                squareSize squareSize colorHex)
        else none
  strokes ++ fills

/-- Replace the join rule of a stroke primitive by the SVG `round` rule,
leaving everything else (geometry, colour, stroke width, fills) unchanged. -/
def withRoundJoin : RenderPrim → RenderPrim
  | RenderPrim.strokePath pts color width _ =>
      RenderPrim.strokePath pts color width "round"
  | p => p

/-! ## Reachability from the border

The specification's notion "reachable from any grid border through a
4-connected path of unoccupied cells", stated directly as an inductive
relation (this is the spec-side characterisation the flood fill is compared
against). -/

/-- Cell `(y, x)` lies inside the `width × height` grid. -/
def inBoundsCell (width height : ℕ) (y x : ℤ) : Prop :=
  0 ≤ y ∧ y < (height : ℤ) ∧ 0 ≤ x ∧ x < (width : ℤ)

/-- Cell `(y, x)` lies on the grid border. -/
def isBorderCell (width height : ℕ) (y x : ℤ) : Prop :=
  y = 0 ∨ y = (height : ℤ) - 1 ∨ x = 0 ∨ x = (width : ℤ) - 1

/-- `(y, x)` is an unoccupied cell reachable from an unoccupied border cell
through a 4-connected path of unoccupied in-bounds cells. -/
inductive ReachableFromBorder (grid : ℤ → ℤ → Bool) (width height : ℕ) :
    ℤ → ℤ → Prop where
  | border {y x : ℤ} : inBoundsCell width height y x →
      isBorderCell width height y x → grid y x = false →
      ReachableFromBorder grid width height y x
  | step {y x ny nx : ℤ} : ReachableFromBorder grid width height y x →
      inBoundsCell width height ny nx →
      ((ny = y - 1 ∧ nx = x) ∨ (ny = y + 1 ∧ nx = x) ∨
        (ny = y ∧ nx = x - 1) ∨ (ny = y ∧ nx = x + 1)) →
      grid ny nx = false → ReachableFromBorder grid width height ny nx

/-! ## Concrete grids used in the specification's scenarios -/

/-- The 4×4 solid occupancy grid (all 16 cells occupied). -/
def solid44 : ℤ → ℤ → Bool := fun y x =>
  decide (0 ≤ y ∧ y < 4 ∧ 0 ≤ x ∧ x < 4)

/-- The 5×5 ring grid: border cells occupied, inner 3×3 cells unoccupied. -/
def ring5 : ℤ → ℤ → Bool := fun y x =>
  decide (0 ≤ y ∧ y < 5 ∧ 0 ≤ x ∧ x < 5 ∧ (y = 0 ∨ y = 4 ∨ x = 0 ∨ x = 4))

/-- The 1×1 grid whose single cell is occupied. -/
def cell1 : ℤ → ℤ → Bool := fun y x => decide (y = 0 ∧ x = 0)

/-! ## Soundness of the flood fill (claim C1) -/

/-- Generic invariant preservation for `List.foldl`. -/
theorem foldlInv {α β : Type} (P : β → Prop) (f : β → α → β) :
    ∀ (l : List α) (init : β), P init →
      (∀ b a, a ∈ l → P b → P (f b a)) → P (l.foldl f init) := by
  intro l
  induction l with
  | nil => intro init h _; exact h
  | cons a t ih =>
    intro init h hstep
    exact ih (f init a) (hstep init a (List.mem_cons_self a t) h)
      fun b a' ha' hb => hstep b a' (List.mem_cons_of_mem a ha') hb

theorem setCell_self (bg : ℤ → ℤ → Bool) (y x : ℤ) :
    setCell bg y x y x = true := by simp [setCell]

theorem setCell_mono {bg : ℤ → ℤ → Bool} {j i : ℤ} (y x : ℤ)
    (h : bg j i = true) : setCell bg y x j i = true := by
  simp only [setCell]
  split <;> simp [h]

theorem setCell_eq_true {bg : ℤ → ℤ → Bool} {y x j i : ℤ}
    (h : setCell bg y x j i = true) : (j = y ∧ i = x) ∨ bg j i = true := by
  simp only [setCell] at h
  split at h
  · left; assumption
  · right; exact h

/-- Every marked cell is unoccupied and reachable from the border. -/
def SoundBG (grid : ℤ → ℤ → Bool) (width height : ℕ)
    (bg : ℤ → ℤ → Bool) : Prop :=
  ∀ y x, bg y x = true →
    grid y x = false ∧ ReachableFromBorder grid width height y x

theorem soundBG_setCell {grid : ℤ → ℤ → Bool} {width height : ℕ}
    {bg : ℤ → ℤ → Bool} {y x : ℤ} (hs : SoundBG grid width height bg)
    (hg : grid y x = false)
    (hr : ReachableFromBorder grid width height y x) :
    SoundBG grid width height (setCell bg y x) := by
  intro j i hji
  rcases setCell_eq_true hji with ⟨rfl, rfl⟩ | hji
  · exact ⟨hg, hr⟩
  · exact hs j i hji

/-- Combined invariant used through the seeding and BFS phases: the mark
grid is sound and every queued cell is marked. -/
def BGInv (grid : ℤ → ℤ → Bool) (width height : ℕ)
    (acc : (ℤ → ℤ → Bool) × List (ℤ × ℤ)) : Prop :=
  SoundBG grid width height acc.1 ∧ ∀ p ∈ acc.2, acc.1 p.1 p.2 = true

theorem bgInv_mark {grid : ℤ → ℤ → Bool} {width height : ℕ}
    {acc : (ℤ → ℤ → Bool) × List (ℤ × ℤ)} {y x : ℤ}
    (h : BGInv grid width height acc) (hg : grid y x = false)
    (hr : ReachableFromBorder grid width height y x) :
    BGInv grid width height (setCell acc.1 y x, acc.2 ++ [(y, x)]) := by
  refine ⟨soundBG_setCell h.1 hg hr, ?_⟩
  intro p hp
  rcases List.mem_append.mp hp with hp | hp
  · exact setCell_mono y x (h.2 p hp)
  · rcases List.mem_singleton.mp hp with rfl
    exact setCell_self _ _ _

theorem seedPass_inv (grid : ℤ → ℤ → Bool) (width height : ℕ)
    (hw : 0 < width) (hh : 0 < height) :
    BGInv grid width height (seedPass grid width height) := by
  unfold seedPass
  apply foldlInv (BGInv grid width height)
  · apply foldlInv (BGInv grid width height)
    · exact ⟨fun _ _ h => by simp at h, fun p hp => by simp at hp⟩
    · intro b yn hyn hb
      have hy : (yn : ℤ) < (height : ℤ) := by
        exact_mod_cast List.mem_range.mp hyn
      have hy0 : (0 : ℤ) ≤ (yn : ℤ) := Int.natCast_nonneg yn
      dsimp only
      by_cases h1 : grid (yn : ℤ) 0 = false
      · rw [if_pos h1]
        have hb1 : BGInv grid width height
            (setCell b.1 (yn : ℤ) 0, b.2 ++ [((yn : ℤ), 0)]) :=
          bgInv_mark hb h1 (ReachableFromBorder.border
            ⟨hy0, hy, le_refl 0, by exact_mod_cast hw⟩
            (Or.inr (Or.inr (Or.inl rfl))) h1)
        split
        next h2 =>
          exact bgInv_mark hb1 h2.2 (ReachableFromBorder.border
            ⟨hy0, hy, by omega, by omega⟩ (Or.inr (Or.inr (Or.inr rfl))) h2.2)
        next => exact hb1
      · rw [if_neg h1]
        split
        next h2 =>
          exact bgInv_mark hb h2.2 (ReachableFromBorder.border
            ⟨hy0, hy, by omega, by omega⟩ (Or.inr (Or.inr (Or.inr rfl))) h2.2)
        next => exact hb
  · intro b xn hxn hb
    have hx : (xn : ℤ) < (width : ℤ) := by
      exact_mod_cast List.mem_range.mp hxn
    have hx0 : (0 : ℤ) ≤ (xn : ℤ) := Int.natCast_nonneg xn
    dsimp only
    by_cases h1 : grid 0 (xn : ℤ) = false
    · rw [if_pos h1]
      have hb1 : BGInv grid width height
          (setCell b.1 0 (xn : ℤ), b.2 ++ [(0, (xn : ℤ))]) :=
        bgInv_mark hb h1 (ReachableFromBorder.border
          ⟨le_refl 0, by exact_mod_cast hh, hx0, hx⟩ (Or.inl rfl) h1)
      split
      next h2 =>
        exact bgInv_mark hb1 h2.2 (ReachableFromBorder.border
          ⟨by omega, by omega, hx0, hx⟩ (Or.inr (Or.inl rfl)) h2.2)
      next => exact hb1
    · rw [if_neg h1]
      split
      next h2 =>
        exact bgInv_mark hb h2.2 (ReachableFromBorder.border
          ⟨by omega, by omega, hx0, hx⟩ (Or.inr (Or.inl rfl)) h2.2)
      next => exact hb

theorem neighborScan_inv {grid : ℤ → ℤ → Bool} {width height : ℕ}
    {y x : ℤ} (hr : ReachableFromBorder grid width height y x)
    {acc : (ℤ → ℤ → Bool) × List (ℤ × ℤ)} {c : ℤ × ℤ}
    (hc : c ∈ [(y - 1, x), (y + 1, x), (y, x - 1), (y, x + 1)])
    (hb : BGInv grid width height acc) :
    BGInv grid width height (neighborScan grid width height acc c) := by
  unfold neighborScan
  split
  next h =>
    obtain ⟨h1, h2, h3, h4, _, hg⟩ := h
    simp only [List.mem_cons, List.mem_singleton, List.not_mem_nil,
      or_false] at hc
    have hadj : (c.1 = y - 1 ∧ c.2 = x) ∨ (c.1 = y + 1 ∧ c.2 = x) ∨
        (c.1 = y ∧ c.2 = x - 1) ∨ (c.1 = y ∧ c.2 = x + 1) := by
      rcases hc with rfl | rfl | rfl | rfl
      · exact Or.inl ⟨rfl, rfl⟩
      · exact Or.inr (Or.inl ⟨rfl, rfl⟩)
      · exact Or.inr (Or.inr (Or.inl ⟨rfl, rfl⟩))
      · exact Or.inr (Or.inr (Or.inr ⟨rfl, rfl⟩))
    have := bgInv_mark hb hg
      (ReachableFromBorder.step hr ⟨h1, h2, h3, h4⟩ hadj hg)
    simpa using this
  next => exact hb

theorem bfsLoop_inv (grid : ℤ → ℤ → Bool) (width height : ℕ) :
    ∀ (fuel : ℕ) (queue : List (ℤ × ℤ)) (bg : ℤ → ℤ → Bool),
      BGInv grid width height (bg, queue) →
      SoundBG grid width height (bfsLoop grid width height fuel queue bg) := by
  intro fuel
  induction fuel with
  | zero => intro queue bg h; exact h.1
  | succ n ih =>
    intro queue bg h
    match queue with
    | [] => exact h.1
    | (y, x) :: rest =>
      rw [bfsLoop]
      have hyx : bg y x = true := h.2 (y, x) (List.mem_cons_self _ _)
      have hr : ReachableFromBorder grid width height y x := (h.1 y x hyx).2
      have hrest : BGInv grid width height (bg, rest) :=
        ⟨h.1, fun p hp => h.2 p (List.mem_cons_of_mem _ hp)⟩
      have hfold : BGInv grid width height
          ([(y - 1, x), (y + 1, x), (y, x - 1), (y, x + 1)].foldl
            (neighborScan grid width height) (bg, rest)) :=
        foldlInv _ _ _ _ hrest fun b a ha hb => neighborScan_inv hr ha hb
      exact ih _ _ ⟨hfold.1, hfold.2⟩

theorem getBackgroundGrid_sound (grid : ℤ → ℤ → Bool) (width height : ℕ)
    (hw : 0 < width) (hh : 0 < height) :
    SoundBG grid width height (getBackgroundGrid grid width height) := by
  unfold getBackgroundGrid
  exact bfsLoop_inv grid width height _ _ _ (seedPass_inv grid width height hw hh)

/-- C1: for every occupancy grid, the background mask produced by
`getBackgroundGrid` is `false` at every occupied cell, and `false` at every
unoccupied cell that is not reachable from a border cell through a
4-connected path of unoccupied cells (enclosed holes are not background). -/
theorem C1_background_mask_sound (grid : ℤ → ℤ → Bool) (width height : ℕ)
    (y x : ℤ) (hw : 0 < width) (hh : 0 < height) :
    (grid y x = true → getBackgroundGrid grid width height y x = false) ∧
    (grid y x = false → ¬ ReachableFromBorder grid width height y x →
      getBackgroundGrid grid width height y x = false) := by
  have hs := getBackgroundGrid_sound grid width height hw hh
  constructor
  · intro hocc
    cases hbg : getBackgroundGrid grid width height y x with
    | false => rfl
    | true => exact absurd hocc (by simp [(hs y x hbg).1])
  · intro _ hnr
    cases hbg : getBackgroundGrid grid width height y x with
    | false => rfl
    | true => exact absurd ((hs y x hbg).2) hnr

/-- In the 5×5 ring grid every border cell is occupied, so no cell at all is
reachable from the border through unoccupied cells. -/
theorem ring5_no_reach : ∀ y x : ℤ, ¬ ReachableFromBorder ring5 5 5 y x := by
  intro y x h
  induction h with
  | border hin hb hg =>
    simp only [ring5, inBoundsCell, isBorderCell, decide_eq_false_iff_not,
      not_and, not_or] at hin hb hg
    omega
  | step _ _ _ _ ih => exact ih

/-- Witness for C1 at the 5×5 ring grid: the occupied corner cell `(0,0)` and
the enclosed unoccupied centre cell `(2,2)` are both `false` in the mask. -/
theorem C1_background_mask_sound_witness :
    getBackgroundGrid ring5 5 5 0 0 = false ∧
    getBackgroundGrid ring5 5 5 2 2 = false :=
  ⟨(C1_background_mask_sound ring5 5 5 0 0 (by norm_num) (by norm_num)).1
      (by decide),
    (C1_background_mask_sound ring5 5 5 2 2 (by norm_num) (by norm_num)).2
      (by decide) (ring5_no_reach 2 2)⟩

/-- C3: on the solid 4×4 grid the background mask is false everywhere, and
the tracer returns exactly one path, the simplified outer rectangle
`[(0,0), (4,0), (4,4), (0,4)]`. -/
theorem C3_solid_square_scenario :
    getBackgroundGrid solid44 4 4 = (fun _ _ => false) ∧
    traceAndSimplifyContours solid44 (getBackgroundGrid solid44 4 4) 4 4 =
      [[(0, 0), (4, 0), (4, 4), (0, 4)]] :=
  ⟨rfl, by decide⟩

/-- C5 counterexample: at `r = g = b = 1`, `alpha = 200`, `threshold = 1`
the code computes `gray = 0.9999999999999999` (the double sum rounds below
the exact value) and occupies the cell, although the exact luminance
`0.299 + 0.587 + 0.114` equals the threshold.  So the claimed equivalence
against exact luminance — in particular that a cell whose luminance equals
the threshold is never occupied — is false of the program. -/
theorem C5_counterexample :
    cellOccupied 1 1 1 200 1 = true ∧ luminance 1 1 1 = 1 ∧
    ¬ luminance 1 1 1 < ((1 : ℕ) : ℚ) := by
  refine ⟨by decide, by norm_num [luminance], by norm_num [luminance]⟩

/-- C5 (amended): a grid cell is occupied iff its sample has `alpha > 128`
and the luminance as the code computes it — the IEEE-754 double evaluation
of `0.299·R + 0.587·G + 0.114·B` — is strictly below the threshold; with
threshold 100 and alpha 200, the claim's boundary instances hold: a sample
of exact luminance 99 (= threshold − 1) is occupied, and one of exact
luminance 100 (= threshold, where the double computation is exact) is not. -/
theorem C5_quantizer_rule :
    (∀ (data : ℕ → ℕ) (sx sy t y x : ℕ), y < sy → x < sx →
      (((quantizeGrid data sx sy t).getD y []).getD x false = true ↔
        128 < data ((y * sx + x) * 4 + 3) ∧
          grayLtThreshold (jsGray (data ((y * sx + x) * 4))
            (data ((y * sx + x) * 4 + 1)) (data ((y * sx + x) * 4 + 2)))
            t = true)) ∧
    luminance 99 99 99 = 99 ∧ cellOccupied 99 99 99 200 100 = true ∧
    luminance 100 100 100 = 100 ∧ cellOccupied 100 100 100 200 100 = false := by
  refine ⟨?_, by norm_num [luminance], by decide, by norm_num [luminance],
    by decide⟩
  intro data sx sy t y x hy hx
  have h1 : (quantizeGrid data sx sy t).getD y [] =
      (List.range sx).map (fun x =>
        cellOccupied (data ((y * sx + x) * 4)) (data ((y * sx + x) * 4 + 1))
          (data ((y * sx + x) * 4 + 2)) (data ((y * sx + x) * 4 + 3)) t) := by
    unfold quantizeGrid
    rw [List.getD_eq_getElem _ _ (by simpa using hy), List.getElem_map,
      List.getElem_range]
  rw [h1, List.getD_eq_getElem _ _ (by simpa using hx), List.getElem_map,
    List.getElem_range]
  simp [cellOccupied]

/-- Witness for C5 (amended): the quantizer cell rule instantiated at a
concrete all-zero 1×1 image with threshold 128. -/
theorem C5_quantizer_rule_witness :
    ((quantizeGrid (fun _ => 0) 1 1 128).getD 0 []).getD 0 false = true ↔
      128 < (fun _ => 0 : ℕ → ℕ) ((0 * 1 + 0) * 4 + 3) ∧
        grayLtThreshold (jsGray 0 0 0) 128 = true :=
  C5_quantizer_rule.1 (fun _ => 0) 1 1 128 0 0 (by norm_num) (by norm_num)

/-- C6: `setState` is a no-op when the pushed snapshot equals the current
entry; otherwise it truncates every entry after the cursor, appends the
snapshot, and leaves the cursor on the new last entry; consequently, from an
empty history, `push a; push b; undo; push c` (with `a`, `b`, `c` pairwise
distinct) leaves the entries `[a, c]` with the cursor at `c`. -/
theorem C6_parameter_history :
    (∀ (s : HistoryState) (p : EditorState),
      currentOf s = some p → setState s p = s) ∧
    (∀ (s : HistoryState) (p : EditorState), currentOf s ≠ some p →
      (setState s p).history =
        s.history.take (s.historyIndex + 1).toNat ++ [p] ∧
      (setState s p).historyIndex = ((setState s p).history.length : ℤ) - 1 ∧
      currentOf (setState s p) = some p) ∧
    (∀ a b c : EditorState, a ≠ b → b ≠ c → a ≠ c →
      (setState (handleUndo (setState (setState ⟨[], -1⟩ a) b)) c).history =
        [a, c] ∧
      currentOf (setState (handleUndo (setState (setState ⟨[], -1⟩ a) b)) c) =
        some c) := by
  refine ⟨?_, ?_, ?_⟩
  · intro s p h
    simp [setState, h]
  · intro s p h
    unfold setState
    rw [if_neg h]
    refine ⟨rfl, rfl, ?_⟩
    have hlen : (s.history.take (s.historyIndex + 1).toNat ++ [p]).length =
        (s.history.take (s.historyIndex + 1).toNat).length + 1 := by simp
    unfold currentOf
    dsimp only
    rw [if_pos (by rw [hlen]; push_cast; omega)]
    rw [hlen]
    have : ((((s.history.take (s.historyIndex + 1).toNat).length + 1 : ℕ) : ℤ)
        - 1).toNat = (s.history.take (s.historyIndex + 1).toNat).length := by
      omega
    rw [this]
    rw [List.get?_eq_getElem?]
    exact List.getElem?_concat_length _ _
  · intro a b c hab _ hac
    have h1 : setState ⟨[], -1⟩ a = ⟨[a], 0⟩ := rfl
    have h2 : setState ⟨[a], 0⟩ b = ⟨[a, b], 1⟩ := by
      unfold setState
      rw [if_neg (by simpa [currentOf] using hab)]
      rfl
    have h3 : handleUndo ⟨[a, b], 1⟩ = ⟨[a, b], 0⟩ := rfl
    have h4 : setState ⟨[a, b], 0⟩ c = ⟨[a, c], 1⟩ := by
      unfold setState
      rw [if_neg (by simpa [currentOf] using hac)]
      rfl
    rw [h1, h2, h3, h4]
    exact ⟨rfl, rfl⟩

/-- Three concrete pairwise-distinct editor snapshots. -/
def stA : EditorState :=
  ⟨16, 128, FillShape.circle, 0, ⟨"Black", "#310", "#000000"⟩⟩

def stB : EditorState :=
  ⟨17, 128, FillShape.circle, 0, ⟨"Black", "#310", "#000000"⟩⟩

def stC : EditorState :=
  ⟨18, 128, FillShape.circle, 0, ⟨"Black", "#310", "#000000"⟩⟩

/-- Witness for C6 at three concrete distinct snapshots. -/
theorem C6_parameter_history_witness :
    setState ⟨[stA], 0⟩ stA = ⟨[stA], 0⟩ ∧
    (setState (handleUndo (setState (setState ⟨[], -1⟩ stA) stB)) stC).history =
      [stA, stC] ∧
    currentOf (setState (handleUndo (setState (setState ⟨[], -1⟩ stA) stB)) stC) =
      some stC :=
  ⟨C6_parameter_history.1 ⟨[stA], 0⟩ stA (by decide),
    (C6_parameter_history.2.2 stA stB stC (by decide) (by decide) (by decide)).1,
    (C6_parameter_history.2.2 stA stB stC (by decide) (by decide) (by decide)).2⟩

/-- C8 counterexample: with `gridSize = 32` and aspect ratio 64 the derived
height is 0, yet the quantization stage does not fail with any error — the
run completes and yields the empty grid (the source contains no
`InvalidDimensionError` and performs no dimension check). -/
theorem C8_counterexample :
    stitchesYOf 32 64 = 0 ∧
    quantizeRun (fun _ => 0) 32 (stitchesYOf 32 64).toNat 128 =
      Except.ok [] := by
  have h0 : stitchesYOf 32 64 = 0 := by norm_num [stitchesYOf]
  exact ⟨h0, by rw [h0]; rfl⟩

/-- C8 (amended): the grid always has exactly `stitchesY` rows of
`stitchesX` cells each, and whenever the derived height
`floor(gridSize / aspectRatio)` resolves to 0 the stage completes without
any error, producing the empty grid. -/
theorem C8_quantizer_dimensions :
    (∀ (data : ℕ → ℕ) (sx sy t : ℕ),
      (quantizeGrid data sx sy t).length = sy ∧
      ∀ row ∈ quantizeGrid data sx sy t, row.length = sx) ∧
    (∀ (data : ℕ → ℕ) (sx t gridSize : ℕ) (ar : ℚ),
      stitchesYOf gridSize ar = 0 →
      quantizeRun data sx (stitchesYOf gridSize ar).toNat t =
        Except.ok []) := by
  constructor
  · intro data sx sy t
    refine ⟨by simp [quantizeGrid], ?_⟩
    intro row hrow
    simp only [quantizeGrid, List.mem_map, List.mem_range] at hrow
    obtain ⟨y, _, rfl⟩ := hrow
    simp
  · intro data sx t g ar h
    rw [h]
    rfl

/-- Witness for C8 (amended) at gridSize 32, aspect ratio 64. -/
theorem C8_quantizer_dimensions_witness :
    quantizeRun (fun _ => 255) 32 (stitchesYOf 32 64).toNat 200 =
      Except.ok [] :=
  C8_quantizer_dimensions.2 (fun _ => 255) 32 200 32 64
    (by norm_num [stitchesYOf])

/-- C7 (amended): at the SVG logical scale of 10 units per stitch cell, the
SVG export emits exactly the raster pass's primitive list — same stroke
widths (`2 × outlineOffset`), same stroke geometry, same fill-shape geometry
(circle radius `cellSize/3`, square side `cellSize·2/3`, centred) — except
that every stroke's join rule is `round` where the raster pass uses
`miter`. -/
theorem C7_render_geometry (grid : ℤ → ℤ → Bool) (sx sy : ℕ)
    (shape : FillShape) (off : ℚ) (color : String) (hoff : 0 < off) :
    svgCommands grid sx sy shape off color =
      (rasterCommands grid sx sy shape off color 10 10).map withRoundJoin := by
  unfold svgCommands rasterCommands
  simp only [if_pos hoff, List.map_append, List.map_filterMap,
    List.map_flatMap]
  refine congrArg₂ _ ?_ ?_
  · refine List.filterMap_congr fun path _ => ?_
    by_cases h : path.length < 2
    · simp [h]
    · simp [h, withRoundJoin]
  · refine congrArg _ (funext fun y => ?_)
    refine List.filterMap_congr fun x _ => ?_
    by_cases hg : grid (y : ℤ) (x : ℤ)
    · cases shape <;>
        simp only [hg, if_true, Option.map_some, withRoundJoin] <;>
        · refine congrArg some ?_
          congr 1 <;> (try simp only [min_self]) <;> ring_nf
    · simp [hg]

/-- The join rules of the stroke primitives of a command list, in order. -/
def strokeJoins (l : List RenderPrim) : List String :=
  l.filterMap fun p =>
    match p with
    | RenderPrim.strokePath _ _ _ join => some join
    | _ => none

/-- C7 counterexample: on the 1×1 occupied grid with `outlineOffset = 1`,
the SVG export strokes its one contour with a `round` join while the raster
pass strokes the same contour with a `miter` join — the two backends do not
use the same line-join rule. -/
theorem C7_counterexample :
    strokeJoins (svgCommands cell1 1 1 FillShape.circle 1 "#000000") =
      ["round"] ∧
    strokeJoins
      (rasterCommands cell1 1 1 FillShape.circle 1 "#000000" 10 10) =
      ["miter"] := by
  have hc : traceAndSimplifyContours cell1 (getBackgroundGrid cell1 1 1) 1 1 =
      [[(0, 0), (1, 0), (1, 1), (0, 1)]] := by decide
  have h01 : (0 : ℚ) < 1 := by norm_num
  constructor
  · unfold svgCommands strokeJoins
    simp only [if_pos h01]
    rw [hc]
    simp [List.range_succ, cell1]
  · unfold rasterCommands strokeJoins
    simp only [if_pos h01]
    rw [hc]
    simp [List.range_succ, cell1]

/-- Witness for C7 (amended) on the 1×1 occupied grid with offset 1. -/
theorem C7_render_geometry_witness :
    svgCommands cell1 1 1 FillShape.circle 1 "#000000" =
      (rasterCommands cell1 1 1 FillShape.circle 1 "#000000" 10 10).map
        withRoundJoin :=
  C7_render_geometry cell1 1 1 FillShape.circle 1 "#000000" (by norm_num)

/-! ## Characterisation of the boundary-edge sets (claim C2) -/

theorem addIfNew_mem (l : List Pt) (p q : Pt) :
    q ∈ addIfNew l p ↔ q ∈ l ∨ q = p := by
  unfold addIfNew
  split
  next h =>
    constructor
    · exact Or.inl
    · rintro (hq | rfl)
      · exact hq
      · exact h
  next h => simp [List.mem_append]

/-- How one occupied cell `c = (y, x)` can contribute a horizontal edge key
`p` in `collectStep`. -/
def hContrib (grid bg : ℤ → ℤ → Bool) (height : ℕ) (c : ℕ × ℕ) (p : Pt) :
    Prop :=
  grid (c.1 : ℤ) (c.2 : ℤ) = true ∧
    ((p = ((c.2 : ℤ), (c.1 : ℤ)) ∧
        ((c.1 : ℤ) = 0 ∨ bg ((c.1 : ℤ) - 1) (c.2 : ℤ) = true)) ∨
      (p = ((c.2 : ℤ), (c.1 : ℤ) + 1) ∧
        ((c.1 : ℤ) = (height : ℤ) - 1 ∨ bg ((c.1 : ℤ) + 1) (c.2 : ℤ) = true)))

/-- How one occupied cell `c = (y, x)` can contribute a vertical edge key
`p` in `collectStep`. -/
def vContrib (grid bg : ℤ → ℤ → Bool) (width : ℕ) (c : ℕ × ℕ) (p : Pt) :
    Prop :=
  grid (c.1 : ℤ) (c.2 : ℤ) = true ∧
    ((p = ((c.2 : ℤ), (c.1 : ℤ)) ∧
        ((c.2 : ℤ) = 0 ∨ bg (c.1 : ℤ) ((c.2 : ℤ) - 1) = true)) ∨
      (p = ((c.2 : ℤ) + 1, (c.1 : ℤ)) ∧
        ((c.2 : ℤ) = (width : ℤ) - 1 ∨ bg (c.1 : ℤ) ((c.2 : ℤ) + 1) = true)))

theorem collectStep_mem_fst (grid bg : ℤ → ℤ → Bool) (width height : ℕ)
    (acc : List Pt × List Pt) (c : ℕ × ℕ) (p : Pt) :
    p ∈ (collectStep grid bg width height acc c).1 ↔
      p ∈ acc.1 ∨ hContrib grid bg height c p := by
  unfold collectStep hContrib
  by_cases hocc : grid (c.1 : ℤ) (c.2 : ℤ) = true
  · simp only [hocc, if_true]
    by_cases h1 : (c.1 : ℤ) = 0 ∨ bg ((c.1 : ℤ) - 1) (c.2 : ℤ) = true <;>
      by_cases h2 : (c.1 : ℤ) = (height : ℤ) - 1 ∨
          bg ((c.1 : ℤ) + 1) (c.2 : ℤ) = true <;>
        simp only [h1, h2, if_true, if_false, addIfNew_mem, hocc, true_and] <;>
        tauto
  · simp [hocc]

theorem collectStep_mem_snd (grid bg : ℤ → ℤ → Bool) (width height : ℕ)
    (acc : List Pt × List Pt) (c : ℕ × ℕ) (p : Pt) :
    p ∈ (collectStep grid bg width height acc c).2 ↔
      p ∈ acc.2 ∨ vContrib grid bg width c p := by
  unfold collectStep vContrib
  by_cases hocc : grid (c.1 : ℤ) (c.2 : ℤ) = true
  · simp only [hocc, if_true]
    by_cases h1 : (c.2 : ℤ) = 0 ∨ bg (c.1 : ℤ) ((c.2 : ℤ) - 1) = true <;>
      by_cases h2 : (c.2 : ℤ) = (width : ℤ) - 1 ∨
          bg (c.1 : ℤ) ((c.2 : ℤ) + 1) = true <;>
        simp only [h1, h2, if_true, if_false, addIfNew_mem, hocc, true_and] <;>
        tauto
  · simp [hocc]

theorem collectFold_mem_fst (grid bg : ℤ → ℤ → Bool) (width height : ℕ)
    (p : Pt) : ∀ (cells : List (ℕ × ℕ)) (acc : List Pt × List Pt),
    (p ∈ (cells.foldl (collectStep grid bg width height) acc).1 ↔
      p ∈ acc.1 ∨ ∃ c ∈ cells, hContrib grid bg height c p) := by
  intro cells
  induction cells with
  | nil => simp
  | cons c t ih =>
    intro acc
    rw [List.foldl_cons, ih, collectStep_mem_fst]
    simp only [List.mem_cons]
    constructor
    · rintro ((h | h) | ⟨c', hc', h⟩)
      · exact Or.inl h
      · exact Or.inr ⟨c, Or.inl rfl, h⟩
      · exact Or.inr ⟨c', Or.inr hc', h⟩
    · rintro (h | ⟨c', (rfl | hc'), h⟩)
      · exact Or.inl (Or.inl h)
      · exact Or.inl (Or.inr h)
      · exact Or.inr ⟨c', hc', h⟩

theorem collectFold_mem_snd (grid bg : ℤ → ℤ → Bool) (width height : ℕ)
    (p : Pt) : ∀ (cells : List (ℕ × ℕ)) (acc : List Pt × List Pt),
    (p ∈ (cells.foldl (collectStep grid bg width height) acc).2 ↔
      p ∈ acc.2 ∨ ∃ c ∈ cells, vContrib grid bg width c p) := by
  intro cells
  induction cells with
  | nil => simp
  | cons c t ih =>
    intro acc
    rw [List.foldl_cons, ih, collectStep_mem_snd]
    simp only [List.mem_cons]
    constructor
    · rintro ((h | h) | ⟨c', hc', h⟩)
      · exact Or.inl h
      · exact Or.inr ⟨c, Or.inl rfl, h⟩
      · exact Or.inr ⟨c', Or.inr hc', h⟩
    · rintro (h | ⟨c', (rfl | hc'), h⟩)
      · exact Or.inl (Or.inl h)
      · exact Or.inl (Or.inr h)
      · exact Or.inr ⟨c', hc', h⟩

theorem mem_gridCells (width height : ℕ) (c : ℕ × ℕ) :
    c ∈ gridCells width height ↔ c.1 < height ∧ c.2 < width := by
  obtain ⟨y, x⟩ := c
  simp only [gridCells, List.mem_flatMap, List.mem_map, List.mem_range,
    Prod.mk.injEq]
  constructor
  · rintro ⟨y', hy', x', hx', rfl, rfl⟩
    exact ⟨hy', hx'⟩
  · rintro ⟨hy, hx⟩
    exact ⟨y, hy, x, hx, rfl, rfl⟩

theorem collectEdges_mem_fst (grid bg : ℤ → ℤ → Bool) (width height : ℕ)
    (p : Pt) :
    p ∈ (collectEdges grid bg width height).1 ↔
      ∃ c : ℕ × ℕ, c.1 < height ∧ c.2 < width ∧
        hContrib grid bg height c p := by
  unfold collectEdges
  rw [collectFold_mem_fst]
  simp only [List.not_mem_nil, false_or]
  constructor
  · rintro ⟨c, hc, h⟩
    obtain ⟨h1, h2⟩ := (mem_gridCells width height c).mp hc
    exact ⟨c, h1, h2, h⟩
  · rintro ⟨c, h1, h2, h⟩
    exact ⟨c, (mem_gridCells width height c).mpr ⟨h1, h2⟩, h⟩

theorem collectEdges_mem_snd (grid bg : ℤ → ℤ → Bool) (width height : ℕ)
    (p : Pt) :
    p ∈ (collectEdges grid bg width height).2 ↔
      ∃ c : ℕ × ℕ, c.1 < height ∧ c.2 < width ∧
        vContrib grid bg width c p := by
  unfold collectEdges
  rw [collectFold_mem_snd]
  simp only [List.not_mem_nil, false_or]
  constructor
  · rintro ⟨c, hc, h⟩
    obtain ⟨h1, h2⟩ := (mem_gridCells width height c).mp hc
    exact ⟨c, h1, h2, h⟩
  · rintro ⟨c, h1, h2, h⟩
    exact ⟨c, (mem_gridCells width height c).mpr ⟨h1, h2⟩, h⟩

set_option maxRecDepth 8000 in
/-- C2: a side of an occupied in-bounds cell `(x, y)` is selected as a
boundary edge iff the neighbour across that side is out of the grid or
marked `true` in the background mask produced by `getBackgroundGrid`; and
on the 5×5 ring grid with its enclosed 3×3 hole, the tracer returns only the
outer boundary path (no path around the hole). -/
theorem C2_boundary_edge_rule :
    (∀ (grid : ℤ → ℤ → Bool) (w h x y : ℕ), 0 < w → 0 < h → x < w → y < h →
      grid (y : ℤ) (x : ℤ) = true →
      (((x : ℤ), (y : ℤ)) ∈
          (collectEdges grid (getBackgroundGrid grid w h) w h).1 ↔
        (y : ℤ) = 0 ∨ getBackgroundGrid grid w h ((y : ℤ) - 1) (x : ℤ) = true) ∧
      (((x : ℤ), (y : ℤ) + 1) ∈
          (collectEdges grid (getBackgroundGrid grid w h) w h).1 ↔
        (y : ℤ) = (h : ℤ) - 1 ∨
          getBackgroundGrid grid w h ((y : ℤ) + 1) (x : ℤ) = true) ∧
      (((x : ℤ), (y : ℤ)) ∈
          (collectEdges grid (getBackgroundGrid grid w h) w h).2 ↔
        (x : ℤ) = 0 ∨ getBackgroundGrid grid w h (y : ℤ) ((x : ℤ) - 1) = true) ∧
      (((x : ℤ) + 1, (y : ℤ)) ∈
          (collectEdges grid (getBackgroundGrid grid w h) w h).2 ↔
        (x : ℤ) = (w : ℤ) - 1 ∨
          getBackgroundGrid grid w h (y : ℤ) ((x : ℤ) + 1) = true)) ∧
    traceAndSimplifyContours ring5 (getBackgroundGrid ring5 5 5) 5 5 =
      [[(0, 0), (5, 0), (5, 5), (0, 5)]] := by
  constructor
  · intro grid w h x y hw hh hx hy hocc
    have hsound := getBackgroundGrid_sound grid w h hw hh
    set bg := getBackgroundGrid grid w h with hbg
    refine ⟨?_, ?_, ?_, ?_⟩
    · constructor
      · intro hmem
        obtain ⟨⟨cy, cx⟩, hcy, hcx, hoccC, hcase⟩ :=
          (collectEdges_mem_fst grid bg w h _).mp hmem
        rcases hcase with ⟨hpq, hcond⟩ | ⟨hpq, hcond⟩
        · rw [Prod.mk.injEq, Nat.cast_inj, Nat.cast_inj] at hpq
          obtain ⟨rfl, rfl⟩ := hpq
          exact hcond
        · rw [Prod.mk.injEq] at hpq
          obtain ⟨hpx, hpy⟩ := hpq
          rcases hcond with hcond | hcond
          · exfalso; omega
          · exfalso
            rw [show (cy : ℤ) + 1 = (y : ℤ) from hpy.symm,
              show (cx : ℤ) = (x : ℤ) from hpx.symm] at hcond
            exact absurd hocc (by simp [(hsound _ _ hcond).1])
      · intro hcond
        exact (collectEdges_mem_fst grid bg w h _).mpr
          ⟨(y, x), hy, hx, hocc, Or.inl ⟨rfl, hcond⟩⟩
    · constructor
      · intro hmem
        obtain ⟨⟨cy, cx⟩, hcy, hcx, hoccC, hcase⟩ :=
          (collectEdges_mem_fst grid bg w h _).mp hmem
        rcases hcase with ⟨hpq, hcond⟩ | ⟨hpq, hcond⟩
        · rw [Prod.mk.injEq] at hpq
          obtain ⟨hpx, hpy⟩ := hpq
          rcases hcond with hcond | hcond
          · exfalso; omega
          · exfalso
            rw [show (cy : ℤ) - 1 = (y : ℤ) from by omega,
              show (cx : ℤ) = (x : ℤ) from hpx.symm] at hcond
            exact absurd hocc (by simp [(hsound _ _ hcond).1])
        · rw [Prod.mk.injEq] at hpq
          obtain ⟨hpx, hpy⟩ := hpq
          rw [show (cy : ℤ) = (y : ℤ) from by omega,
            show (cx : ℤ) = (x : ℤ) from hpx.symm] at hcond
          exact hcond
      · intro hcond
        exact (collectEdges_mem_fst grid bg w h _).mpr
          ⟨(y, x), hy, hx, hocc, Or.inr ⟨rfl, hcond⟩⟩
    · constructor
      · intro hmem
        obtain ⟨⟨cy, cx⟩, hcy, hcx, hoccC, hcase⟩ :=
          (collectEdges_mem_snd grid bg w h _).mp hmem
        rcases hcase with ⟨hpq, hcond⟩ | ⟨hpq, hcond⟩
        · rw [Prod.mk.injEq, Nat.cast_inj, Nat.cast_inj] at hpq
          obtain ⟨rfl, rfl⟩ := hpq
          exact hcond
        · rw [Prod.mk.injEq] at hpq
          obtain ⟨hpx, hpy⟩ := hpq
          rcases hcond with hcond | hcond
          · exfalso; omega
          · exfalso
            rw [show (cx : ℤ) + 1 = (x : ℤ) from hpx.symm,
              show (cy : ℤ) = (y : ℤ) from hpy.symm] at hcond
            exact absurd hocc (by simp [(hsound _ _ hcond).1])
      · intro hcond
        exact (collectEdges_mem_snd grid bg w h _).mpr
          ⟨(y, x), hy, hx, hocc, Or.inl ⟨rfl, hcond⟩⟩
    · constructor
      · intro hmem
        obtain ⟨⟨cy, cx⟩, hcy, hcx, hoccC, hcase⟩ :=
          (collectEdges_mem_snd grid bg w h _).mp hmem
        rcases hcase with ⟨hpq, hcond⟩ | ⟨hpq, hcond⟩
        · rw [Prod.mk.injEq] at hpq
          obtain ⟨hpx, hpy⟩ := hpq
          rcases hcond with hcond | hcond
          · exfalso; omega
          · exfalso
            rw [show (cx : ℤ) - 1 = (x : ℤ) from by omega,
              show (cy : ℤ) = (y : ℤ) from hpy.symm] at hcond
            exact absurd hocc (by simp [(hsound _ _ hcond).1])
        · rw [Prod.mk.injEq] at hpq
          obtain ⟨hpx, hpy⟩ := hpq
          rw [show (cx : ℤ) = (x : ℤ) from by omega,
            show (cy : ℤ) = (y : ℤ) from hpy.symm] at hcond
          exact hcond
      · intro hcond
        exact (collectEdges_mem_snd grid bg w h _).mpr
          ⟨(y, x), hy, hx, hocc, Or.inr ⟨rfl, hcond⟩⟩
  · decide

/-- Witness for C2: the top side of the occupied corner cell `(0, 0)` of the
5×5 ring grid. -/
theorem C2_boundary_edge_rule_witness :
    ((0 : ℤ), (0 : ℤ)) ∈
      (collectEdges ring5 (getBackgroundGrid ring5 5 5) 5 5).1 ↔
      ((0 : ℤ) = 0 ∨ getBackgroundGrid ring5 5 5 ((0 : ℤ) - 1) (0 : ℤ) = true) :=
  (C2_boundary_edge_rule.1 ring5 5 5 0 0 (by norm_num) (by norm_num)
    (by norm_num) (by norm_num) (by decide)).1

/-! ## Structural properties of `simplifyPath` (claims C9, C10, C4) -/

theorem scanKeep_sublist (prev : Pt) (l : List Pt) :
    (scanKeep prev l).Sublist l := by
  induction l generalizing prev with
  | nil => simp [scanKeep]
  | cons c t ih =>
    cases t with
    | nil => simp [scanKeep]
    | cons n rest =>
      rw [scanKeep]
      split
      · exact (ih prev).cons c
      · exact (ih c).cons₂ c

theorem popCheck_sublist (s : List Pt) : (popCheck s).Sublist s := by
  unfold popCheck
  split
  · exact List.dropLast_sublist s
  · exact List.Sublist.refl s

theorem shiftCheck_sublist (s : List Pt) : (shiftCheck s).Sublist s := by
  unfold shiftCheck
  split
  · exact List.tail_sublist s
  · exact List.Sublist.refl s

theorem simplifyPath_sublist (p : List Pt) : (simplifyPath p).Sublist p := by
  unfold simplifyPath
  split
  · exact List.Sublist.refl p
  · cases p with
    | nil => simp
    | cons p0 tl =>
      exact ((shiftCheck_sublist _).trans (popCheck_sublist _)).trans
        ((scanKeep_sublist p0 tl).cons₂ p0)

theorem scanKeep_ne_nil (prev : Pt) (l : List Pt) (h : l ≠ []) :
    scanKeep prev l ≠ [] := by
  induction l generalizing prev with
  | nil => exact absurd rfl h
  | cons c t ih =>
    cases t with
    | nil => simp [scanKeep]
    | cons n rest =>
      rw [scanKeep]
      split
      · exact ih prev (by simp)
      · simp

theorem popCheck_length (s : List Pt) (h : 2 ≤ s.length) :
    2 ≤ (popCheck s).length := by
  unfold popCheck
  split
  next hc =>
    rw [List.length_dropLast]
    omega
  next => exact h

theorem shiftCheck_length (s : List Pt) (h : 2 ≤ s.length) :
    2 ≤ (shiftCheck s).length := by
  unfold shiftCheck
  split
  next hc =>
    rw [List.length_tail]
    omega
  next => exact h

/-- C9's core fact about the simplifier: it never shrinks a path below 2
points. -/
theorem simplifyPath_length (p : List Pt) (h : 2 ≤ p.length) :
    2 ≤ (simplifyPath p).length := by
  unfold simplifyPath
  split
  next => exact h
  next hlen =>
    cases p with
    | nil => simp at h
    | cons p0 tl =>
      have htl : tl ≠ [] := by
        intro hnil
        rw [hnil] at h
        simp at h
      have hs : scanKeep p0 tl ≠ [] := scanKeep_ne_nil p0 tl htl
      have h2 : 2 ≤ (p0 :: scanKeep p0 tl).length := by
        cases hsk : scanKeep p0 tl with
        | nil => exact absurd hsk hs
        | cons a t => simp
      exact shiftCheck_length _ (popCheck_length _ h2)

/-! ## The contour walk visits every point at most once (claims C9, C10) -/

theorem findNext_not_mem (cur : Pt) (visited : List Pt) :
    ∀ (es : List EdgeRec) (c : Pt),
      findNext cur visited es = some c → c ∉ visited := by
  intro es
  induction es with
  | nil => intro c h; simp [findNext] at h
  | cons e rest ih =>
    intro c h
    by_cases h2 : e.2 = cur
    · simp only [findNext, h2, if_true] at h
      split at h
      · exact ih c h
      · next hnm =>
        injection h with h
        subst h
        exact hnm
    · by_cases h1 : e.1 = cur
      · simp only [findNext, h2, h1, if_false, if_true] at h
        split at h
        · exact ih c h
        · next hnm =>
          injection h with h
          subst h
          exact hnm
      · simp only [findNext, h2, h1, if_false] at h
        exact ih c h

theorem walkLoop_spec (m : List (Pt × List EdgeRec)) :
    ∀ (fuel : ℕ) (cur : Pt) (visited path : List Pt),
      ∃ news : List Pt,
        (walkLoop m fuel cur visited path).2 = path ++ news ∧
        (walkLoop m fuel cur visited path).1 = visited ++ news ∧
        news.Nodup ∧ ∀ a ∈ news, a ∉ visited := by
  intro fuel
  induction fuel with
  | zero =>
    intro cur visited path
    exact ⟨[], by simp [walkLoop], by simp [walkLoop], by simp, by simp⟩
  | succ n ih =>
    intro cur visited path
    cases hfn : findNext cur visited (mapGet m cur) with
    | none =>
      refine ⟨[], ?_, ?_, by simp, by simp⟩ <;> rw [walkLoop, hfn] <;> simp
    | some nxt =>
      have hw : walkLoop m (n + 1) cur visited path =
          walkLoop m n nxt (visited ++ [nxt]) (path ++ [nxt]) := by
        rw [walkLoop, hfn]
      obtain ⟨news, h1, h2, h3, h4⟩ := ih nxt (visited ++ [nxt]) (path ++ [nxt])
      have hnv : nxt ∉ visited := findNext_not_mem cur visited _ nxt hfn
      refine ⟨nxt :: news, ?_, ?_, ?_, ?_⟩
      · rw [hw, h1]
        simp
      · rw [hw, h2]
        simp
      · refine List.nodup_cons.mpr ⟨?_, h3⟩
        intro hmem
        exact h4 nxt hmem (by simp)
      · intro a ha
        rcases List.mem_cons.mp ha with rfl | ha
        · exact hnv
        · intro hav
          exact h4 a ha (by simp [hav])

/-- Invariant carried through the outer walk loop: every collected path is
duplicate-free, has at least 2 points, and lies inside the visited set; the
collected paths are pairwise disjoint. -/
def TraceInv (acc : List Pt × List (List Pt)) : Prop :=
  (∀ p ∈ acc.2, p.Nodup ∧ 2 ≤ p.length ∧ ∀ a ∈ p, a ∈ acc.1) ∧
    acc.2.Pairwise List.Disjoint

theorem traceStep_inv (m : List (Pt × List EdgeRec))
    {acc : List Pt × List (List Pt)} (sp : Pt) (h : TraceInv acc) :
    TraceInv (traceStep m acc sp) := by
  unfold traceStep
  split
  next => exact h
  next hsp =>
    obtain ⟨news, h1, h2, h3, h4⟩ :=
      walkLoop_spec m m.length sp (acc.1 ++ [sp]) [sp]
    set w := walkLoop m m.length sp (acc.1 ++ [sp]) [sp] with hwdef
    have hsub : ∀ a ∈ acc.1, a ∈ w.1 := by
      intro a ha
      rw [h2]
      simp [ha]
    have hpathpts : ∀ a ∈ w.2, a ∈ w.1 := by
      intro a ha
      rw [h1] at ha
      rw [h2]
      rcases List.mem_append.mp ha with ha | ha
      · simp at ha
        simp [ha]
      · simp [ha]
    have hpathnew : ∀ a ∈ w.2, a ∉ acc.1 := by
      intro a ha
      rw [h1] at ha
      rcases List.mem_append.mp ha with ha | ha
      · simp at ha
        subst ha
        exact hsp
      · intro hav
        exact h4 a ha (by simp [hav])
    have hnodup : w.2.Nodup := by
      rw [h1]
      refine List.nodup_cons.mpr ⟨?_, h3⟩
      intro hmem
      exact h4 sp hmem (by simp)
    dsimp only
    split
    next hlen =>
      constructor
      · intro p hp
        rcases List.mem_append.mp hp with hp | hp
        · obtain ⟨hn, hl, hpts⟩ := h.1 p hp
          exact ⟨hn, hl, fun a ha => hsub a (hpts a ha)⟩
        · rcases List.mem_singleton.mp hp with rfl
          refine ⟨(simplifyPath_sublist w.2).nodup hnodup,
            simplifyPath_length w.2 (by omega), ?_⟩
          intro a ha
          exact hpathpts a ((simplifyPath_sublist w.2).subset ha)
      · refine List.pairwise_append.mpr ⟨h.2, by simp, ?_⟩
        intro q hq p' hp'
        rcases List.mem_singleton.mp hp' with rfl
        intro a haq hap
        have h5 := (h.1 q hq).2.2 a haq
        exact hpathnew a ((simplifyPath_sublist w.2).subset hap) h5
    next =>
      exact ⟨fun p hp =>
        ⟨(h.1 p hp).1, (h.1 p hp).2.1,
          fun a ha => hsub a ((h.1 p hp).2.2 a ha)⟩, h.2⟩

theorem traceAndSimplifyContours_inv (grid bg : ℤ → ℤ → Bool)
    (width height : ℕ) :
    (∀ p ∈ traceAndSimplifyContours grid bg width height,
      p.Nodup ∧ 2 ≤ p.length) ∧
    (traceAndSimplifyContours grid bg width height).Pairwise List.Disjoint := by
  unfold traceAndSimplifyContours
  dsimp only
  have h := foldlInv TraceInv
    (traceStep (buildPointsToEdges (collectEdges grid bg width height).1
      (collectEdges grid bg width height).2))
    ((buildPointsToEdges (collectEdges grid bg width height).1
      (collectEdges grid bg width height).2).map fun kv => kv.1)
    ([], [])
    ⟨fun p hp => by simp at hp, by simp⟩
    (fun b a _ hb => traceStep_inv _ a hb)
  exact ⟨fun p hp => ⟨(h.1 p hp).1, (h.1 p hp).2.1⟩, h.2⟩

/-- C9: every path returned by `traceAndSimplifyContours` has at least 2
points. -/
theorem C9_every_path_length_ge_two (grid bg : ℤ → ℤ → Bool)
    (width height : ℕ) (p : List Pt)
    (hp : p ∈ traceAndSimplifyContours grid bg width height) :
    2 ≤ p.length :=
  ((traceAndSimplifyContours_inv grid bg width height).1 p hp).2

/-- Witness for C9: the single path of the solid 4×4 grid's trace has 4
points. -/
theorem C9_every_path_length_ge_two_witness :
    2 ≤ ([((0 : ℤ), (0 : ℤ)), (4, 0), (4, 4), (0, 4)] : List Pt).length :=
  C9_every_path_length_ge_two solid44 (getBackgroundGrid solid44 4 4) 4 4
    [(0, 0), (4, 0), (4, 4), (0, 4)] (by decide)

/-- C10: across the whole output of `traceAndSimplifyContours`, every grid
point appears at most once — the returned paths are pairwise disjoint, each
is free of repeated points, and in particular no path repeats its starting
point to close the loop. -/
theorem C10_paths_disjoint_nodup (grid bg : ℤ → ℤ → Bool)
    (width height : ℕ) :
    (traceAndSimplifyContours grid bg width height).flatten.Nodup ∧
    (traceAndSimplifyContours grid bg width height).Pairwise List.Disjoint := by
  obtain ⟨h1, h2⟩ := traceAndSimplifyContours_inv grid bg width height
  exact ⟨List.nodup_flatten.mpr ⟨fun l hl => (h1 l hl).1, h2⟩, h2⟩

/-! ## Idempotence of `simplifyPath` on duplicate-free paths (claim C4) -/

theorem cross3_self_right (p c : Pt) : cross3 p c c = 0 := by
  unfold cross3
  ring

theorem cross3_cyc (p q r : Pt) : cross3 p q r = cross3 q r p := by
  unfold cross3
  ring

/-- Two distinct lines through `B` (the line `AB` and the line `BC`) meet
only at `B`: a point on both is `B`. -/
theorem cross3_two_lines {A B C X : Pt} (h : cross3 A B C ≠ 0)
    (h1 : cross3 A B X = 0) (h2 : cross3 B C X = 0) : X = B := by
  have e1 : cross3 A B C * (X.1 - B.1) =
      cross3 A B X * (C.1 - B.1) + cross3 B C X * (A.1 - B.1) := by
    unfold cross3
    ring
  have e2 : cross3 A B C * (X.2 - B.2) =
      cross3 A B X * (C.2 - B.2) + cross3 B C X * (A.2 - B.2) := by
    unfold cross3
    ring
  rw [h1, h2] at e1 e2
  simp only [zero_mul, add_zero] at e1 e2
  rcases mul_eq_zero.mp e1 with hc | hx1
  · exact absurd hc h
  · rcases mul_eq_zero.mp e2 with hc | hx2
    · exact absurd hc h
    · exact Prod.ext (by omega) (by omega)

/-- Collinearity transfers along the line through `P` and `R`. -/
theorem cross3_transfer {P Q R S : Pt} (hPR : P ≠ R)
    (h1 : cross3 P Q R = 0) (h2 : cross3 P R S = 0) : cross3 P Q S = 0 := by
  have e1 : cross3 P Q S * (R.1 - P.1) =
      cross3 P Q R * (S.1 - P.1) + cross3 P R S * (Q.1 - P.1) := by
    unfold cross3
    ring
  have e2 : cross3 P Q S * (R.2 - P.2) =
      cross3 P Q R * (S.2 - P.2) + cross3 P R S * (Q.2 - P.2) := by
    unfold cross3
    ring
  rw [h1, h2] at e1 e2
  simp only [zero_mul, add_zero, zero_add] at e1 e2
  by_cases hx : R.1 - P.1 = 0
  · have hy : R.2 - P.2 ≠ 0 := by
      intro hy
      exact hPR (Prod.ext (by omega) (by omega)).symm
    rcases mul_eq_zero.mp e2 with hc | hc
    · exact hc
    · exact absurd hc hy
  · rcases mul_eq_zero.mp e1 with hc | hc
    · exact hc
    · exact absurd hc hx

/-- No three consecutive points of the list are collinear (or degenerate). -/
def Triplewise : List Pt → Prop
  | a :: b :: c :: rest => cross3 a b c ≠ 0 ∧ Triplewise (b :: c :: rest)
  | _ => True

theorem triplewise_tail {l : List Pt} (a : Pt) (h : Triplewise (a :: l)) :
    Triplewise l := by
  match l with
  | [] => trivial
  | [_] => trivial
  | b :: c :: rest => exact h.2

theorem triplewise_get {l : List Pt} (h : Triplewise l) :
    ∀ i : ℕ, i + 2 < l.length →
      cross3 (l.getD i 0) (l.getD (i + 1) 0) (l.getD (i + 2) 0) ≠ 0 := by
  induction l with
  | nil => intro i hi; simp at hi
  | cons a t ih =>
    intro i hi
    match t, h with
    | [], _ => simp at hi
    | [_], _ => simp at hi
    | b :: c :: rest, h =>
      cases i with
      | zero => simpa using h.1
      | succ j =>
        have := ih h.2 j (by simpa using hi)
        simpa using this

theorem triplewise_of_get {l : List Pt}
    (h : ∀ i : ℕ, i + 2 < l.length →
      cross3 (l.getD i 0) (l.getD (i + 1) 0) (l.getD (i + 2) 0) ≠ 0) :
    Triplewise l := by
  induction l with
  | nil => trivial
  | cons a t ih =>
    match t with
    | [] => trivial
    | [_] => trivial
    | b :: c :: rest =>
      refine ⟨by simpa using h 0 (by simp), ?_⟩
      exact ih fun i hi => by simpa using h (i + 1) (by simpa using hi)

theorem scanKeep_head_collinear (prev : Pt) :
    ∀ (rest : List Pt) (c m : Pt), prev ∉ rest →
      (scanKeep prev (c :: rest)).head? = some m → cross3 prev c m = 0 := by
  intro rest
  induction rest generalizing prev with
  | nil =>
    intro c m _ h
    rw [scanKeep] at h
    simp only [List.head?_cons, Option.some.injEq] at h
    rw [← h]
    exact cross3_self_right prev c
  | cons n2 rest' ih =>
    intro c m hnm h
    rw [scanKeep] at h
    split at h
    next hdrop =>
      have hn2 : prev ∉ rest' := fun hx => hnm (List.mem_cons_of_mem n2 hx)
      have h2 := ih prev n2 m hn2 h
      exact cross3_transfer (fun he => hnm (he ▸ List.mem_cons_self n2 rest'))
        hdrop h2
    next =>
      simp only [List.head?_cons, Option.some.injEq] at h
      rw [← h]
      exact cross3_self_right prev c

theorem scanKeep_triplewise (prev : Pt) :
    ∀ l : List Pt, (prev :: l).Nodup →
      Triplewise (prev :: scanKeep prev l) := by
  intro l
  induction l generalizing prev with
  | nil => intro _; rw [scanKeep]; trivial
  | cons c t ih =>
    intro hnd
    cases t with
    | nil =>
      rw [scanKeep]
      trivial
    | cons n rest =>
      rw [scanKeep]
      split
      next hdrop =>
        refine ih prev ?_
        have hsub : (prev :: n :: rest).Sublist (prev :: c :: n :: rest) :=
          (List.sublist_cons_self c (n :: rest)).cons₂ prev
        exact hsub.nodup hnd
      next hkeep =>
        cases hs : scanKeep c (n :: rest) with
        | nil => exact absurd hs (scanKeep_ne_nil c (n :: rest) (by simp))
        | cons m s2 =>
          have hndc : (c :: n :: rest).Nodup := (List.nodup_cons.mp hnd).2
          have hcnr : c ∉ n :: rest := (List.nodup_cons.mp hndc).1
          have hcm : cross3 c n m = 0 := by
            refine scanKeep_head_collinear c rest n m ?_ ?_
            · exact fun hx => hcnr (List.mem_cons_of_mem n hx)
            · rw [hs]
              rfl
          have hmem : m ∈ n :: rest := by
            have : m ∈ scanKeep c (n :: rest) := by
              rw [hs]
              exact List.mem_cons_self m s2
            exact (scanKeep_sublist c (n :: rest)).subset this
          have hmc : m ≠ c := fun he => hcnr (he ▸ hmem)
          refine ⟨?_, ?_⟩
          · intro h0
            exact hmc (cross3_two_lines hkeep h0 hcm)
          · have := ih c hndc
            rw [hs] at this
            exact this

theorem getD_dropLast (l : List Pt) (i : ℕ) (h : i < l.length - 1) :
    l.dropLast.getD i 0 = l.getD i 0 := by
  rw [List.getD_eq_getElem _ _ (by rw [List.length_dropLast]; omega),
    List.getD_eq_getElem _ _ (by omega), List.getElem_dropLast]

theorem getD_tail (l : List Pt) (i : ℕ) :
    l.tail.getD i 0 = l.getD (i + 1) 0 := by
  cases l with
  | nil => simp
  | cons a t => simp [List.getD_cons_succ]

theorem nodup_getD_ne {l : List Pt} (h : l.Nodup) {i j : ℕ}
    (hi : i < l.length) (hj : j < l.length) (hij : i ≠ j) :
    l.getD i 0 ≠ l.getD j 0 := by
  rw [List.getD_eq_getElem _ _ hi, List.getD_eq_getElem _ _ hj]
  intro he
  exact hij (h.getElem_inj_iff.mp he)

/-- The first wrap-around check keeps the list duplicate-free and locally
non-collinear, and establishes its own condition on the result. -/
theorem popCheck_good {s : List Pt} (hnd : s.Nodup) (htw : Triplewise s) :
    (popCheck s).Nodup ∧ Triplewise (popCheck s) ∧
      (3 ≤ (popCheck s).length →
        cross3 ((popCheck s).getD ((popCheck s).length - 2) 0)
          ((popCheck s).getD ((popCheck s).length - 1) 0)
          ((popCheck s).getD 0 0) ≠ 0) := by
  unfold popCheck
  split
  next hc =>
    obtain ⟨hlen, hzero⟩ := hc
    have hL : s.dropLast.length = s.length - 1 := List.length_dropLast s
    refine ⟨(List.dropLast_sublist s).nodup hnd, ?_, ?_⟩
    · refine triplewise_of_get fun i hi => ?_
      rw [hL] at hi
      rw [getD_dropLast _ _ (by omega), getD_dropLast _ _ (by omega),
        getD_dropLast _ _ (by omega)]
      exact triplewise_get htw i (by omega)
    · intro h3
      rw [hL] at h3 ⊢
      rw [getD_dropLast _ _ (by omega), getD_dropLast _ _ (by omega),
        getD_dropLast _ _ (by omega)]
      intro h0
      have htri := triplewise_get htw (s.length - 3) (by omega)
      rw [show s.length - 3 + 1 = s.length - 2 by omega,
        show s.length - 3 + 2 = s.length - 1 by omega] at htri
      rw [show s.length - 1 - 2 = s.length - 3 by omega,
        show s.length - 1 - 1 = s.length - 2 by omega] at h0
      have hXB := cross3_two_lines htri h0 hzero
      exact nodup_getD_ne hnd (by omega) (by omega) (by omega) hXB
  next hc =>
    exact ⟨hnd, htw, fun h3 h0 => hc ⟨h3, h0⟩⟩

/-- The second wrap-around check keeps the list duplicate-free and locally
non-collinear, and establishes both wrap conditions on the result. -/
theorem shiftCheck_good {t : List Pt} (hnd : t.Nodup) (htw : Triplewise t)
    (hpop : 3 ≤ t.length →
      cross3 (t.getD (t.length - 2) 0) (t.getD (t.length - 1) 0)
        (t.getD 0 0) ≠ 0) :
    (shiftCheck t).Nodup ∧ Triplewise (shiftCheck t) ∧
      (3 ≤ (shiftCheck t).length →
        cross3 ((shiftCheck t).getD ((shiftCheck t).length - 2) 0)
          ((shiftCheck t).getD ((shiftCheck t).length - 1) 0)
          ((shiftCheck t).getD 0 0) ≠ 0 ∧
        cross3 ((shiftCheck t).getD ((shiftCheck t).length - 1) 0)
          ((shiftCheck t).getD 0 0) ((shiftCheck t).getD 1 0) ≠ 0) := by
  unfold shiftCheck
  split
  next hc =>
    obtain ⟨hlen, hzero⟩ := hc
    have hL : t.tail.length = t.length - 1 := List.length_tail t
    refine ⟨(List.tail_sublist t).nodup hnd, ?_, ?_⟩
    · cases t with
      | nil => trivial
      | cons a t2 => exact triplewise_tail a htw
    · intro h3
      rw [hL] at h3 ⊢
      simp only [getD_tail]
      rw [show t.length - 1 - 2 + 1 = t.length - 2 by omega,
        show t.length - 1 - 1 + 1 = t.length - 1 by omega]
      constructor
      · intro h0
        have hA := cross3_two_lines (hpop (by omega)) h0 hzero
        exact nodup_getD_ne hnd (by omega) (by omega) (by omega) hA
      · intro h0
        rw [cross3_cyc] at h0
        have hz2 := hzero
        rw [cross3_cyc] at hz2
        have htri := triplewise_get htw 0 (by omega)
        have hXB := cross3_two_lines htri hz2 h0
        exact nodup_getD_ne hnd (by omega) (by omega) (by omega) hXB
  next hc =>
    exact ⟨hnd, htw, fun h3 => ⟨hpop h3, fun h0 => hc ⟨h3, h0⟩⟩⟩

theorem scanKeep_of_triplewise (prev : Pt) :
    ∀ l : List Pt, Triplewise (prev :: l) → scanKeep prev l = l := by
  intro l
  induction l generalizing prev with
  | nil => intro _; rw [scanKeep]
  | cons c t ih =>
    intro h
    cases t with
    | nil => rw [scanKeep]
    | cons n rest =>
      rw [scanKeep, if_neg h.1, ih c h.2]

/-- A duplicate-free, locally non-collinear list satisfying both wrap
conditions is a fixed point of `simplifyPath`. -/
theorem simplifyPath_fixpoint {r : List Pt} (htw : Triplewise r)
    (hw : 3 ≤ r.length →
      cross3 (r.getD (r.length - 2) 0) (r.getD (r.length - 1) 0)
        (r.getD 0 0) ≠ 0 ∧
      cross3 (r.getD (r.length - 1) 0) (r.getD 0 0) (r.getD 1 0) ≠ 0) :
    simplifyPath r = r := by
  unfold simplifyPath
  split
  next => rfl
  next hlen =>
    cases r with
    | nil => rfl
    | cons r0 rtl =>
      have h3 : 3 ≤ (r0 :: rtl).length := by omega
      show shiftCheck (popCheck (r0 :: scanKeep r0 rtl)) = r0 :: rtl
      rw [scanKeep_of_triplewise r0 rtl htw]
      have hne1 : ¬(3 ≤ (r0 :: rtl).length ∧
          cross3 ((r0 :: rtl).getD ((r0 :: rtl).length - 2) 0)
            ((r0 :: rtl).getD ((r0 :: rtl).length - 1) 0)
            ((r0 :: rtl).getD 0 0) = 0) :=
        fun hcond => (hw h3).1 hcond.2
      rw [popCheck, if_neg hne1]
      have hne2 : ¬(3 ≤ (r0 :: rtl).length ∧
          cross3 ((r0 :: rtl).getD ((r0 :: rtl).length - 1) 0)
            ((r0 :: rtl).getD 0 0) ((r0 :: rtl).getD 1 0) = 0) :=
        fun hcond => (hw h3).2 hcond.2
      rw [shiftCheck, if_neg hne2]

/-- C4 counterexample: `simplifyPath` is not idempotent on the 7-point path
`[(0,1), (0,0), (1,0), (1,1), (1,0), (2,0), (2,1)]`, which revisits the
point `(1,0)`: the first application yields
`[(0,1), (0,0), (1,0), (2,0), (2,1)]`, whose interior point `(1,0)` is
collinear with its new neighbours, and the second application removes it. -/
theorem C4_counterexample :
    simplifyPath (simplifyPath
        [((0 : ℤ), (1 : ℤ)), (0, 0), (1, 0), (1, 1), (1, 0), (2, 0), (2, 1)]) ≠
      simplifyPath
        [((0 : ℤ), (1 : ℤ)), (0, 0), (1, 0), (1, 1), (1, 0), (2, 0), (2, 1)] := by
  decide

/-- C4 (amended): `simplifyPath` is idempotent on every path without
repeated points (every path the tracer produces is of this form), and
returns every path of fewer than 3 points unchanged. -/
theorem C4_simplify_idempotent :
    (∀ p : List Pt, p.Nodup →
      simplifyPath (simplifyPath p) = simplifyPath p) ∧
    (∀ p : List Pt, p.length < 3 → simplifyPath p = p) := by
  have hshort : ∀ p : List Pt, p.length < 3 → simplifyPath p = p := by
    intro p hlen
    unfold simplifyPath
    rw [if_pos hlen]
  refine ⟨?_, hshort⟩
  intro p hnd
  by_cases hlen : p.length < 3
  · rw [hshort p hlen, hshort p hlen]
  · cases p with
    | nil => exact absurd (by simp) hlen
    | cons p0 tl =>
      have hs : simplifyPath (p0 :: tl) =
          shiftCheck (popCheck (p0 :: scanKeep p0 tl)) := by
        rw [simplifyPath, if_neg hlen]
      have hnds : (p0 :: scanKeep p0 tl).Nodup :=
        ((scanKeep_sublist p0 tl).cons₂ p0).nodup hnd
      have htws : Triplewise (p0 :: scanKeep p0 tl) :=
        scanKeep_triplewise p0 tl hnd
      obtain ⟨hnd1, htw1, hpop1⟩ := popCheck_good hnds htws
      obtain ⟨hnd2, htw2, hw2⟩ := shiftCheck_good hnd1 htw1 hpop1
      rw [hs]
      exact simplifyPath_fixpoint htw2 hw2

/-- Witness for C4 (amended): a concrete duplicate-free 3-point corner path
and a concrete 1-point path. -/
theorem C4_simplify_idempotent_witness :
    simplifyPath (simplifyPath [((0 : ℤ), (0 : ℤ)), (1, 0), (1, 1)]) =
      simplifyPath [((0 : ℤ), (0 : ℤ)), (1, 0), (1, 1)] ∧
    simplifyPath [((5 : ℤ), (5 : ℤ))] = [((5 : ℤ), (5 : ℤ))] :=
  ⟨C4_simplify_idempotent.1 _ (by decide),
    C4_simplify_idempotent.2 _ (by decide)⟩

end CrossStitch
